import Mathlib

/-!
Verification of the SR Linux interactive session protocol engine
(`plugins/module_utils/srlinux.py` and `plugins/modules/srlinux_compare.py`).

Python strings are modelled as `String` (with the underlying `List Char` used
for the character-level operations); the SSH device is modelled as a response
function `String → String`; the transport transcript is the ordered list of
command strings sent to the device; `fail_json` (which terminates the module)
is modelled as `Except.error`.
-/

namespace SRLinux

/-! ### Python string primitives -/

/-- The whitespace set used by Python's `str.strip()` and by `\s` in `re`
(ASCII whitespace, the C1/latin-1 spaces, and the Unicode space separators). -/
def isPySpace (c : Char) : Bool :=
  c = ' ' || c = '\t' || c = '\n' || c = '\r' || c = '\x0b' || c = '\x0c' ||
  c = '\x1c' || c = '\x1d' || c = '\x1e' || c = '\x1f' || c = '\x85' || c = '\xa0' ||
  c = ' ' || (0x2000 ≤ c.toNat && c.toNat ≤ 0x200a) ||
  c = ' ' || c = ' ' || c = ' ' || c = ' ' || c = '　'

/-- Python `str.strip()` on a character list. -/
def pyStripL (l : List Char) : List Char :=
  ((l.dropWhile isPySpace).reverse.dropWhile isPySpace).reverse

/-- Python `str.strip()`. -/
def pyStrip (s : String) : String := ⟨pyStripL s.data⟩

/-- `pat` is a leading run of `l` (Python `str.startswith`). -/
def startsWithL : List Char → List Char → Bool
  | [], _ => true
  | _ :: _, [] => false
  | p :: ps, c :: cs => p = c && startsWithL ps cs

/-- Python `pat in l` substring containment. -/
def containsL (pat : List Char) : List Char → Bool
  | [] => pat.isEmpty
  | c :: rest => startsWithL pat (c :: rest) || containsL pat rest

/-- Python `kw in s.lower()` (ASCII lowering, as all marker keywords are ASCII). -/
def containsLower (s kw : String) : Bool :=
  containsL kw.data (s.data.map Char.toLower)

/-- Python `s.split('\n')` on a character list (keeps empty pieces). -/
def pySplitL : List Char → List (List Char)
  | [] => [[]]
  | c :: rest =>
    if c = '\n' then [] :: pySplitL rest
    else
      match pySplitL rest with
      | [] => [[c]]
      | line :: more => (c :: line) :: more

/-- Python `'\n'.join(lines)` on character lists. -/
def pyJoinL : List (List Char) → List Char
  | [] => []
  | [l] => l
  | l :: rest => l ++ '\n' :: pyJoinL rest

/-- Python `'\n'.join(lines)` on strings. -/
def pyJoin (lines : List String) : String := ⟨pyJoinL (lines.map String.data)⟩

/-- Python `s.split('\n')` on strings. -/
def pySplit (s : String) : List String := (pySplitL s.data).map String.mk

/-! ### `_strip_ansi_codes` (srlinux.py lines 115-141)

Each of the six `re.sub(..., '', text)` deletion passes is embedded as a
left-to-right scan: at an `ESC` character the pass tries to match the rest of
its pattern; on success the whole match is dropped and scanning resumes after
it, otherwise the character is kept and scanning moves on by one character —
exactly `re.sub`'s leftmost non-overlapping semantics for these patterns. -/

/-- A strict suffix of `l` (what remains after a nonempty pattern match). -/
def Shrunk (l : List Char) := { r : List Char // r.length < l.length }

/-- Weaken a strict-suffix bound along one extra leading character. -/
def Shrunk.lift1 {c : Char} {l : List Char} (r : Shrunk l) : Shrunk (c :: l) :=
  ⟨r.1, Nat.lt_succ_of_lt r.2⟩

/-- The character class `[a-zA-Z]`. -/
def isAsciiLetter (c : Char) : Bool :=
  (65 ≤ c.toNat && c.toNat ≤ 90) || (97 ≤ c.toNat && c.toNat ≤ 122)

/-- The character class `[0-9;]` of CSI parameter bytes. -/
def csiParamChar (c : Char) : Bool :=
  (48 ≤ c.toNat && c.toNat ≤ 57) || c.toNat = 59

/-- Matcher for `[0-9;]*[a-zA-Z]` (the tail of a CSI / charset sequence). -/
def csiBodyM : (l : List Char) → Option (Shrunk l)
  | [] => none
  | c :: rest =>
    if isAsciiLetter c then some ⟨rest, Nat.lt_succ_self _⟩
    else if csiParamChar c then (csiBodyM rest).map Shrunk.lift1
    else none

/-- Matcher for the part after `ESC` of `\x1b\[\??[0-9;]*[a-zA-Z]`. -/
def csiM : (l : List Char) → Option (Shrunk l)
  | '[' :: c :: rest =>
    if c = '?' then (csiBodyM rest).map (fun r => r.lift1.lift1)
    else (csiBodyM (c :: rest)).map Shrunk.lift1
  | _ => none

/-- Matcher for the lazy OSC body `.*?\x07` (`.` does not cross a newline). -/
def oscScanM : (l : List Char) → Option (Shrunk l)
  | [] => none
  | c :: rest =>
    if c = '\x07' then some ⟨rest, Nat.lt_succ_self _⟩
    else if c = '\n' then none
    else (oscScanM rest).map Shrunk.lift1

/-- Matcher for the part after `ESC` of `\x1b\].*?\x07`. -/
def oscM : (l : List Char) → Option (Shrunk l)
  | ']' :: rest => (oscScanM rest).map Shrunk.lift1
  | _ => none

/-- Matcher for the part after `ESC` of `\x1b[=>]`. -/
def esc2M : (l : List Char) → Option (Shrunk l)
  | c :: rest => if c = '=' || c = '>' then some ⟨rest, Nat.lt_succ_self _⟩ else none
  | [] => none

/-- Matcher for the part after `ESC` of `\x1b\([0-9;]*[a-zA-Z]`. -/
def charsetM : (l : List Char) → Option (Shrunk l)
  | '(' :: rest => (csiBodyM rest).map Shrunk.lift1
  | _ => none

/-- Matcher for the part after `ESC` of `\x1b\[6n`. -/
def dsrM : (l : List Char) → Option (Shrunk l)
  | '[' :: '6' :: 'n' :: rest => some ⟨rest, by simp [List.length_cons]; omega⟩
  | _ => none

/-- Matcher for the part after `ESC` of `\x1b\[\?2004[hl]`. -/
def pasteM : (l : List Char) → Option (Shrunk l)
  | '[' :: '?' :: '2' :: '0' :: '0' :: '4' :: c :: rest =>
    if c = 'h' || c = 'l' then some ⟨rest, by simp [List.length_cons]; omega⟩ else none
  | _ => none

/-- The deletion-pass scan with explicit fuel (structural recursion, so that
the kernel can evaluate it; any fuel at least the list length gives the same
result, see `stripWithF_irrel`). -/
def stripWithF (m : (l : List Char) → Option (Shrunk l)) : Nat → List Char → List Char
  | 0, l => l
  | _ + 1, [] => []
  | fuel + 1, c :: rest =>
    if c = '\x1b' then
      match m rest with
      | some r => stripWithF m fuel r.1
      | none => c :: stripWithF m fuel rest
    else c :: stripWithF m fuel rest

/-- One `re.sub(pattern, '', text)` deletion pass, where `pattern` is
`ESC` followed by the sub-pattern recognised by `m`. -/
def stripWith (m : (l : List Char) → Option (Shrunk l)) (l : List Char) : List Char :=
  stripWithF m l.length l

/-- Characters removed by the final control-character pass
(`[\x00-\x08\x0b-\x0c\x0e-\x1f]`). -/
def isCtrlStrip (c : Char) : Bool :=
  c.toNat ≤ 0x08 || c.toNat = 0x0b || c.toNat = 0x0c ||
  (0x0e ≤ c.toNat && c.toNat ≤ 0x1f)

/-- The final control-character deletion pass. -/
def stripCtrlL (l : List Char) : List Char := l.filter fun c => !(isCtrlStrip c)

/-- `SRLinuxConnection._strip_ansi_codes`: the six escape-sequence passes in
source order followed by the control-character pass. -/
def stripAnsiL (l : List Char) : List Char :=
  stripCtrlL (stripWith pasteM (stripWith dsrM (stripWith charsetM
    (stripWith esc2M (stripWith oscM (stripWith csiM l))))))

/-- `SRLinuxConnection._strip_ansi_codes` on strings. -/
def stripAnsi (s : String) : String := ⟨stripAnsiL s.data⟩

/-! ### Prompt detection and `_send_command` (srlinux.py lines 143-179) -/

/-- `re.search(r'[#>]\s*$', s)`: some `#` or `>` is followed only by
whitespace, i.e. the text stripped of trailing whitespace ends in `#`/`>`. -/
def promptFound (l : List Char) : Bool :=
  match l.reverse.dropWhile isPySpace with
  | [] => false
  | c :: _ => c = '#' || c = '>'

/-- One iteration of the `_send_command` poll loop: whether the channel had
data ready, and the chunk received if it did. -/
structure PollStep where
  ready : Bool
  chunk : List Char

/-- The accumulation loop of `_send_command` (`wait_for_prompt=True`): the
deadline is modelled by the finite list of poll iterations that fit in
`max_wait`; on each ready poll the chunk is appended and the ANSI-cleaned
accumulation is tested for a prompt, breaking (returning the raw
accumulation) on a match; when the iterations are exhausted the raw
accumulation so far is returned. -/
def sendCommandReads (steps : List PollStep) (acc : List Char) : List Char :=
  match steps with
  | [] => acc
  | st :: rest =>
    if st.ready then
      let acc' := acc ++ st.chunk
      if promptFound (stripAnsiL acc') then acc'
      else sendCommandReads rest acc'
    else sendCommandReads rest acc

/-- The data received over a run of poll iterations. -/
def chunksOf (steps : List PollStep) : List Char :=
  (steps.filterMap fun st => if st.ready then some st.chunk else none).flatten

/-! ### `execute_command` (srlinux.py lines 181-202) -/

/-- Scan for `\}--` with no intervening newline (tail of `^--\{.*\}--`). -/
def promptScan : List Char → Bool
  | '\x7d' :: '-' :: '-' :: _ => true
  | '\n' :: _ => false
  | _ :: rest => promptScan rest
  | [] => false

/-- `re.match(r'^--\{.*\}--', line)`: the line starts with `--\x7b` and
`\x7d--` occurs later with no newline in between. -/
def isPromptLine (line : String) : Bool :=
  match line.data with
  | '-' :: '-' :: '\x7b' :: rest => promptScan rest
  | _ => false

/-- The post-processing of `execute_command`: strip ANSI codes, split into
lines, take `lines[1:-1]`, drop the `--\x7b ... \x7d--` prompt lines, join and
strip. -/
def processCommandOutput (raw : String) : String :=
  let t := stripAnsi raw
  let lines := (pySplitL t.data).map String.mk
  let body := (lines.drop 1).dropLast
  pyStrip (pyJoin (body.filter fun l => !(isPromptLine l)))

/-- `SRLinuxConnection.execute_command` against a device response function
(connection and the raw read are abstracted into `dev`). -/
def execute_command (dev : String → String) (command : String) : String :=
  processCommandOutput (dev command)

/-! ### `_clean_diff_output` (srlinux.py lines 341-376) -/

/-- Scan for `#` with no intervening newline (tail of `^A:.*#`). -/
def hashScan : List Char → Bool
  | [] => false
  | '#' :: _ => true
  | '\n' :: _ => false
  | _ :: rest => hashScan rest

/-- `re.match(r'^A:.*#', line)`. -/
def isAPromptLine (line : String) : Bool :=
  match line.data with
  | 'A' :: ':' :: rest => hashScan rest
  | _ => false

/-- A line of diff output survives the four `continue` filters: not a
`--\x7b...\x7d--` prompt, not an `A:...#` prompt, not a literal `diff` echo,
not blank. -/
def keepDiffLine (line : String) : Bool :=
  !(isPromptLine line) && !(isAPromptLine line) &&
  !(pyStrip line = "diff") && !(pyStrip line = "")

/-- Python `str.isalnum()` restricted to ASCII (all device output the engine
classifies is ASCII). -/
def pyIsAlnum (c : Char) : Bool := c.isAlpha || c.isDigit

/-- The characters `'+-\x7b\x7d[]'` of the final residue test. -/
def diffMarkChars : List Char := ['+', '-', '\x7b', '\x7d', '[', ']']

/-- The residue of `_clean_diff_output` before its final test: ANSI-stripped,
line-filtered, rejoined, stripped. -/
def diffResidue (raw : String) : String :=
  let t := stripAnsi raw
  pyStrip (pyJoin (((pySplitL t.data).map String.mk).filter keepDiffLine))

/-- `SRLinuxConnection._clean_diff_output`. -/
def cleanDiffOutput (raw : String) : String :=
  let result := diffResidue raw
  if result = "" || !(result.data.any fun c => pyIsAlnum c || diffMarkChars.contains c)
  then "" else result

/-! ### `send_config` (srlinux.py lines 271-339) -/

/-- The device-reported rejection test of the statement loop:
`'error' in output.lower() or 'invalid' in output.lower()`. -/
def errMarker (out : String) : Bool :=
  containsLower out "error" || containsLower out "invalid"

/-- The commit-failure test: `'error' in out.lower() or 'failed' in out.lower()`. -/
def commitErrMarker (out : String) : Bool :=
  containsLower out "error" || containsLower out "failed"

/-- A line names a recognised top-level configuration domain. -/
def hasKeyword (line : String) : Bool :=
  ["interface", "network-instance", "protocols", "system"].any fun k =>
    containsL k.data line.data

/-- The per-line body of the `has_changes` detection loop over
`result['diff'].split('\n')` (`d` is the whole cleaned diff). -/
def hasChangesLoop (d : String) : List String → Bool
  | [] => false
  | line :: rest =>
    let ls := pyStrip line
    if (startsWithL ['+'] ls.data || startsWithL ['-'] ls.data) &&
       !(startsWithL ['+', '+', '+'] ls.data || startsWithL ['-', '-', '-'] ls.data)
    then true
    else if hasKeyword line && (containsL ['+'] d.data || containsL ['-'] d.data)
    then true
    else hasChangesLoop d rest

/-- The `has_changes` decision of `send_config` (lines 307-319). -/
def hasChanges (d : String) : Bool :=
  if d = "" then false else hasChangesLoop d (pySplit d)

/-- The `{'changed': ..., 'commands': ..., 'diff': ...}` result dictionary. -/
structure ConfigResult where
  changed : Bool
  commands : List String
  diff : String
deriving DecidableEq, Repr

/-- The statement loop of `send_config` (lines 292-300): blank lines are
skipped; each remaining statement is sent and appended to `commands`; on a
device-reported error the loop sends `quit` (`exit_candidate_mode`) and
fails. Returns (commands so far, transcript of sent commands, error). -/
def applyStatements (dev : String → String) : List String →
    List String × List String × Option String
  | [] => ([], [], none)
  | line :: rest =>
    if pyStrip line = "" then applyStatements dev rest
    else
      let out := dev line
      if errMarker out then
        ([line], [line, "quit"], some ("Configuration error: " ++ out))
      else
        let (cmds, tr, err) := applyStatements dev rest
        (line :: cmds, line :: tr, err)

/-- `SRLinuxConnection.send_config`: returns the module result (or the
`fail_json` message) together with the transcript of commands sent to the
device, in order. -/
def send_config (dev : String → String) (lines : List String) (commit : Bool) :
    Except String ConfigResult × List String :=
  if lines.isEmpty then (Except.ok ⟨false, [], ""⟩, [])
  else
    let entOut := dev "enter candidate"
    if !(containsLower entOut "candidate") then
      (Except.error "Failed to enter candidate mode", ["enter candidate"])
    else
      match applyStatements dev lines with
      | (_, tr, some msg) => (Except.error msg, "enter candidate" :: tr)
      | (cmds, tr, none) =>
        let d := cleanDiffOutput (dev "diff")
        if hasChanges d then
          if commit then
            let cOut := dev "commit now"
            if commitErrMarker cOut then
              (Except.error ("Commit failed: " ++ cOut),
               "enter candidate" :: tr ++ ["diff", "commit now", "quit"])
            else
              (Except.ok ⟨true, cmds, d⟩,
               "enter candidate" :: tr ++ ["diff", "commit now", "quit"])
          else
            (Except.ok ⟨true, cmds, d⟩, "enter candidate" :: tr ++ ["diff", "quit"])
        else
          (Except.ok ⟨false, cmds, d⟩,
           "enter candidate" :: tr ++ ["diff", "discard now", "quit"])

/-! ### `srlinux_compare` (srlinux_compare.py lines 186-229) -/

/-- Code-point lexicographic `≤` on character lists (Python string
comparison). -/
def leChars : List Char → List Char → Bool
  | [], _ => true
  | _ :: _, [] => false
  | a :: as, b :: bs =>
    if a.toNat < b.toNat then true
    else if a = b then leChars as bs
    else false

/-- Code-point lexicographic `≤` on strings (the order Python `sorted`
produces on strings). -/
def strLeB (a b : String) : Bool := leChars a.data b.data

/-- Python `sorted` on a list of strings. -/
def sortStrings (l : List String) : List String :=
  l.insertionSort fun a b => strLeB a b = true

/-- The canonical statement lines of a list of candidate lines: each line is
stripped and kept iff it is nonempty and starts with `set `; duplicates
collapse (Python builds a `set`). -/
def canonList (lines : List String) : List String :=
  ((lines.map pyStrip).filter fun l => !(l = "") && startsWithL "set ".data l.data).dedup

/-- The canonical statement set of a list of candidate lines. -/
def canonSet (lines : List String) : Finset String := (canonList lines).toFinset

/-- The canonical statement set of observed device text (split into lines
first). -/
def canonText (s : String) : Finset String := canonSet (pySplit s)

/-- The drift report assembled by the compare module. -/
structure DriftReport where
  missing : List String
  extra : List String
  has_drift : Bool
  diff : String
deriving DecidableEq, Repr

/-- The comparison logic of `srlinux_compare.main` (lines 191-218), as a
function of the intended lines and the observed running-config text:
`missing = intended_set - running_set`, `extra = running_set - intended_set`,
both reported sorted; `has_drift = bool(missing or extra)`; the diff text is
the `+ `-prefixed missing lines followed by the `- `-prefixed extra lines. -/
def compareLogic (intended : List String) (observed : String) : DriftReport :=
  let iL := canonList intended
  let oL := canonList (pySplit observed)
  let missing := sortStrings (iL.filter fun l => !(oL.contains l))
  let extra := sortStrings (oL.filter fun l => !(iL.contains l))
  { missing := missing
    extra := extra
    has_drift := !missing.isEmpty || !extra.isEmpty
    diff := pyJoin (missing.map (fun l => "+ " ++ l) ++
                    extra.map (fun l => "- " ++ l)) }

/-- The methods the Python class `SRLinuxConnection` defines (srlinux.py). -/
def srlinuxConnectionMethods : List String :=
  ["__init__", "connect", "disconnect", "_clear_buffer", "_strip_ansi_codes",
   "_send_command", "execute_command", "execute_commands",
   "enter_candidate_mode", "exit_candidate_mode", "get_config", "send_config",
   "_clean_diff_output", "check_config_diff"]

/-- The method name `srlinux_compare.main` invokes on the connection object to
retrieve the running configuration (line 190). -/
def compareRetrievalMethod : String := "send_command"

/-- `srlinux_compare.main`'s try/except around the retrieval and comparison:
Python attribute dispatch raises `AttributeError` when the invoked method is
not defined on the class, which the `except` clause converts into a
`fail_json` failure; otherwise the comparison logic would run on the
retrieved text. -/
def compareMain (dev : String → String) (intended : List String)
    (configPath : String) : Except String DriftReport :=
  if compareRetrievalMethod ∈ srlinuxConnectionMethods then
    Except.ok (compareLogic intended (dev ("info flat " ++ configPath)))
  else
    Except.error "Configuration comparison failed: AttributeError"

/-! ### Well-formed escape-token streams (for the normalizer claims) -/

/-- A token of a byte stream made of printable ASCII and well-formed CSI/OSC
escape sequences. -/
inductive AnsiTok where
  | plain (c : Char)
  | csi (q : Bool) (ps : List Char) (f : Char)
  | osc (body : List Char)
deriving Repr

/-- Printable ASCII. -/
def printableAscii (c : Char) : Bool := 0x20 ≤ c.toNat && c.toNat ≤ 0x7e

/-- Well-formedness of one token: plain characters are printable ASCII; a CSI
sequence has `[0-9;]` parameters and a letter final byte; an OSC body is
printable ASCII (so contains no `BEL`, `ESC` or newline). -/
def AnsiTok.wf : AnsiTok → Bool
  | .plain c => printableAscii c
  | .csi _ ps f => ps.all csiParamChar && isAsciiLetter f
  | .osc b => b.all printableAscii

/-- The byte rendering of one token. -/
def AnsiTok.render : AnsiTok → List Char
  | .plain c => [c]
  | .csi q ps f => '\x1b' :: '[' :: ((if q then '?' :: ps else ps) ++ [f])
  | .osc b => '\x1b' :: ']' :: (b ++ ['\x07'])

/-- The byte rendering of a token stream. -/
def renderToks (ts : List AnsiTok) : List Char :=
  ts.foldr (fun t acc => t.render ++ acc) []

/-- The plain characters of a token stream (what remains once every
recognised escape form is removed). -/
def plainOf (ts : List AnsiTok) : List Char :=
  ts.foldr (fun t acc => match t with | .plain c => c :: acc | _ => acc) []

/-- Token-level classifiers. -/
def AnsiTok.isCsiTok : AnsiTok → Bool
  | .csi _ _ _ => true
  | _ => false

def AnsiTok.isOscTok : AnsiTok → Bool
  | .osc _ => true
  | _ => false

deriving instance DecidableEq for Except

/-! ### Concrete devices for the scenario claims -/

/-- Mock device for the rejected-statement scenario: acknowledges candidate
mode and reports `Error: invalid option` for the bogus statement. -/
def devReject : String → String
  | "enter candidate" => "--\x7b candidate shared default \x7d--"
  | "set / interface ethernet-1/1 bogus-opt enable" => "Error: invalid option"
  | _ => ""

/-- Mock device for the empty-diff scenario: acknowledges candidate mode and
answers the `diff` command with just the literal `diff` echo line and a
bracketed prompt line. -/
def devNoChange : String → String
  | "enter candidate" => "--\x7b candidate shared default \x7d--"
  | "diff" => "diff\n--\x7b candidate shared default \x7d--"
  | _ => ""

/-- Mock device for the `execute_command` post-processing scenario: the raw
read echoes the command, then three body lines (one a bracketed banner), then
a non-banner final line. -/
def devEcho : String → String :=
  fun _ => "echo\n body1\n--\x7b x \x7d--\nbody2\ntail"

/-! ## Lemmas about the deletion passes -/

theorem stripWithF_irrel (m : (l : List Char) → Option (Shrunk l)) :
    ∀ f₁ f₂ l, l.length ≤ f₁ → l.length ≤ f₂ →
      stripWithF m f₁ l = stripWithF m f₂ l := by
  intro f₁
  induction f₁ with
  | zero =>
    intro f₂ l h₁ _
    have hl : l = [] := List.eq_nil_of_length_eq_zero (Nat.le_zero.mp h₁)
    subst hl
    cases f₂ <;> rfl
  | succ f ih =>
    intro f₂ l h₁ h₂
    cases f₂ with
    | zero =>
      have hl : l = [] := List.eq_nil_of_length_eq_zero (Nat.le_zero.mp h₂)
      subst hl; rfl
    | succ g =>
      cases l with
      | nil => rfl
      | cons c rest =>
        have hf : rest.length ≤ f := Nat.succ_le_succ_iff.mp (by simpa using h₁)
        have hg : rest.length ≤ g := Nat.succ_le_succ_iff.mp (by simpa using h₂)
        simp only [stripWithF]
        by_cases hc : c = '\x1b'
        · simp only [if_pos hc]
          cases hm : m rest with
          | some r =>
            exact ih g r.1 (Nat.le_of_lt (Nat.lt_of_lt_of_le r.2 hf))
              (Nat.le_of_lt (Nat.lt_of_lt_of_le r.2 hg))
          | none => exact congrArg (c :: ·) (ih g rest hf hg)
        · simp only [if_neg hc]
          exact congrArg (c :: ·) (ih g rest hf hg)

theorem stripWith_nil (m : (l : List Char) → Option (Shrunk l)) :
    stripWith m [] = [] := rfl

theorem stripWith_cons_ne (m : (l : List Char) → Option (Shrunk l))
    {c : Char} (rest : List Char) (hc : ¬ c = '\x1b') :
    stripWith m (c :: rest) = c :: stripWith m rest := by
  show stripWithF m (rest.length + 1) (c :: rest) = _
  simp only [stripWithF, if_neg hc]
  rfl

theorem stripWith_esc_none (m : (l : List Char) → Option (Shrunk l))
    {rest : List Char} (hm : m rest = none) :
    stripWith m ('\x1b' :: rest) = '\x1b' :: stripWith m rest := by
  show stripWithF m (rest.length + 1) ('\x1b' :: rest) = _
  simp only [stripWithF, if_pos rfl, hm]
  rfl

theorem stripWith_esc_some (m : (l : List Char) → Option (Shrunk l))
    {rest : List Char} {r : Shrunk rest} (hm : m rest = some r) :
    stripWith m ('\x1b' :: rest) = stripWith m r.1 := by
  show stripWithF m (rest.length + 1) ('\x1b' :: rest) = _
  simp only [stripWithF, if_pos rfl, hm]
  exact stripWithF_irrel m rest.length r.1.length r.1 (Nat.le_of_lt r.2) Nat.le.refl

theorem stripWith_noEsc (m : (l : List Char) → Option (Shrunk l))
    {l : List Char} (h : ∀ c ∈ l, ¬ c = '\x1b') : stripWith m l = l := by
  induction l with
  | nil => rfl
  | cons c rest ih =>
    rw [stripWith_cons_ne m rest (h c (List.mem_cons_self c rest))]
    exact congrArg (c :: ·) (ih fun x hx => h x (List.mem_cons_of_mem c hx))

theorem stripWith_append (m : (l : List Char) → Option (Shrunk l))
    {a : List Char} (b : List Char) (h : ∀ c ∈ a, ¬ c = '\x1b') :
    stripWith m (a ++ b) = a ++ stripWith m b := by
  induction a with
  | nil => rfl
  | cons c rest ih =>
    rw [List.cons_append, stripWith_cons_ne m (rest ++ b) (h c (List.mem_cons_self c rest))]
    exact congrArg (c :: ·) (ih fun x hx => h x (List.mem_cons_of_mem c hx))

theorem stripCtrlL_id {l : List Char} (h : ∀ c ∈ l, isCtrlStrip c = false) :
    stripCtrlL l = l :=
  List.filter_eq_self.mpr fun a ha => by simp [h a ha]

theorem mem_stripCtrlL {l : List Char} {c : Char} (hc : c ∈ stripCtrlL l) :
    isCtrlStrip c = false := by
  have := List.of_mem_filter hc
  simpa using this

theorem noCtrl_of_stripAnsiL {l : List Char} {c : Char} (hc : c ∈ stripAnsiL l) :
    isCtrlStrip c = false := mem_stripCtrlL hc

theorem noEsc_of_stripAnsiL {l : List Char} {c : Char} (hc : c ∈ stripAnsiL l) :
    ¬ c = '\x1b' := by
  intro he
  subst he
  have h := noCtrl_of_stripAnsiL hc
  have : isCtrlStrip '\x1b' = true := by decide
  rw [this] at h
  exact Bool.noConfusion h

theorem map_val_some {l : List Char} {m : Option (Shrunk l)} {r : List Char}
    (h : m.map Subtype.val = some r) :
    ∃ hp : r.length < l.length, m = some ⟨r, hp⟩ := by
  cases m with
  | none => simp at h
  | some a =>
    obtain ⟨v, hv⟩ := a
    simp only [Option.map_some'] at h
    have hr : v = r := Option.some.inj h
    subst hr
    exact ⟨hv, rfl⟩

theorem printable_ne_esc {c : Char} (h : printableAscii c = true) : ¬ c = '\x1b' := by
  intro he; subst he; revert h; decide

theorem printable_ne_bel {c : Char} (h : printableAscii c = true) : ¬ c = '\x07' := by
  intro he; subst he; revert h; decide

theorem printable_ne_nl {c : Char} (h : printableAscii c = true) : ¬ c = '\n' := by
  intro he; subst he; revert h; decide

theorem param_ne_question {c : Char} (h : csiParamChar c = true) : ¬ c = '?' := by
  intro he; subst he; revert h; decide

theorem letter_ne_question {c : Char} (h : isAsciiLetter c = true) : ¬ c = '?' := by
  intro he; subst he; revert h; decide

theorem param_not_letter {c : Char} (h : csiParamChar c = true) :
    isAsciiLetter c = false := by
  have h' : (48 ≤ c.toNat ∧ c.toNat ≤ 57) ∨ c.toNat = 59 := by
    simpa [csiParamChar] using h
  rw [Bool.eq_false_iff]
  intro hl
  have h2 : (65 ≤ c.toNat ∧ c.toNat ≤ 90) ∨ (97 ≤ c.toNat ∧ c.toNat ≤ 122) := by
    simpa [isAsciiLetter] using hl
  omega

theorem printable_not_ctrl {c : Char} (h : printableAscii c = true) :
    isCtrlStrip c = false := by
  have h' : 32 ≤ c.toNat ∧ c.toNat ≤ 126 := by simpa [printableAscii] using h
  rw [Bool.eq_false_iff]
  intro hl
  have h2 : ((c.toNat ≤ 8 ∨ c.toNat = 11) ∨ c.toNat = 12) ∨
      (14 ≤ c.toNat ∧ c.toNat ≤ 31) := by simpa [isCtrlStrip] using hl
  omega

theorem map_val_map {l l2 : List Char} (g : Shrunk l → Shrunk l2)
    (hg : ∀ r, (g r).1 = r.1) (m : Option (Shrunk l)) :
    (m.map g).map Subtype.val = m.map Subtype.val := by
  cases m with
  | none => rfl
  | some a => simp [hg]

theorem csiBodyM_val : ∀ (ps : List Char) (f : Char) (tail : List Char),
    (∀ p ∈ ps, csiParamChar p = true) → isAsciiLetter f = true →
    (csiBodyM (ps ++ f :: tail)).map Subtype.val = some tail := by
  intro ps
  induction ps with
  | nil =>
    intro f tail _ hf
    simp [csiBodyM, hf]
  | cons p ps ih =>
    intro f tail hps hf
    have hp : csiParamChar p = true := hps p (List.mem_cons_self p ps)
    have hnl : isAsciiLetter p = false := param_not_letter hp
    simp only [List.cons_append, csiBodyM, hnl, Bool.false_eq_true, if_false, hp, if_true,
      Option.map_map]
    have : (Subtype.val ∘ @Shrunk.lift1 p (ps ++ f :: tail)) = Subtype.val := rfl
    rw [this]
    exact ih f tail (fun x hx => hps x (List.mem_cons_of_mem p hx)) hf

theorem oscScanM_val : ∀ (b : List Char) (tail : List Char),
    (∀ c ∈ b, printableAscii c = true) →
    (oscScanM (b ++ '\x07' :: tail)).map Subtype.val = some tail := by
  intro b
  induction b with
  | nil =>
    intro tail _
    simp [oscScanM]
  | cons c b ih =>
    intro tail hb
    have hc : printableAscii c = true := hb c (List.mem_cons_self c b)
    simp only [List.cons_append, oscScanM, if_neg (printable_ne_bel hc),
      if_neg (printable_ne_nl hc), Option.map_map]
    have : (Subtype.val ∘ @Shrunk.lift1 c (b ++ '\x07' :: tail)) = Subtype.val := rfl
    rw [this]
    exact ih tail fun x hx => hb x (List.mem_cons_of_mem c hx)

theorem csiM_val_q (ps : List Char) (f : Char) (tail : List Char)
    (hps : ∀ p ∈ ps, csiParamChar p = true) (hf : isAsciiLetter f = true) :
    (csiM ('[' :: '?' :: (ps ++ f :: tail))).map Subtype.val = some tail := by
  obtain ⟨hp', hm⟩ := map_val_some (csiBodyM_val ps f tail hps hf)
  simp [csiM, hm, Shrunk.lift1]

theorem csiM_val_noq (ps : List Char) (f : Char) (tail : List Char)
    (hps : ∀ p ∈ ps, csiParamChar p = true) (hf : isAsciiLetter f = true) :
    (csiM ('[' :: (ps ++ f :: tail))).map Subtype.val = some tail := by
  cases ps with
  | nil =>
    obtain ⟨hp', hm⟩ := map_val_some (csiBodyM_val [] f tail (by intro p hp; cases hp) hf)
    simp only [List.nil_append] at hm ⊢
    simp [csiM, hm, if_neg (letter_ne_question hf), Shrunk.lift1]
  | cons p ps =>
    have hp : csiParamChar p = true := hps p (List.mem_cons_self p ps)
    obtain ⟨hp', hm⟩ := map_val_some (csiBodyM_val (p :: ps) f tail hps hf)
    simp only [List.cons_append] at hm ⊢
    simp [csiM, hm, if_neg (param_ne_question hp), Shrunk.lift1]

theorem oscM_val (b : List Char) (tail : List Char)
    (hb : ∀ c ∈ b, printableAscii c = true) :
    (oscM (']' :: (b ++ '\x07' :: tail))).map Subtype.val = some tail := by
  simp only [oscM, Option.map_map]
  have : (Subtype.val ∘ @Shrunk.lift1 ']' (b ++ '\x07' :: tail)) = Subtype.val := rfl
  rw [this]
  exact oscScanM_val b tail hb

theorem csiM_rsb (xs : List Char) : csiM (']' :: xs) = none := by
  cases xs <;> rfl

theorem renderToks_cons (t : AnsiTok) (ts : List AnsiTok) :
    renderToks (t :: ts) = t.render ++ renderToks ts := rfl

theorem tokWf_plain {c : Char} (h : (AnsiTok.plain c).wf = true) :
    printableAscii c = true := h

theorem tokWf_csi {q : Bool} {ps : List Char} {f : Char}
    (h : (AnsiTok.csi q ps f).wf = true) :
    (∀ p ∈ ps, csiParamChar p = true) ∧ isAsciiLetter f = true := by
  have h' : (∀ p ∈ ps, csiParamChar p = true) ∧ isAsciiLetter f = true := by
    simpa [AnsiTok.wf, List.all_eq_true] using h
  exact h'

theorem tokWf_osc {b : List Char} (h : (AnsiTok.osc b).wf = true) :
    ∀ c ∈ b, printableAscii c = true := List.all_eq_true.mp h

theorem noEsc_oscRender {b : List Char} (hb : ∀ c ∈ b, printableAscii c = true) :
    ∀ c ∈ ']' :: (b ++ ['\x07']), ¬ c = '\x1b' := by
  intro c hc
  rcases List.mem_cons.mp hc with h1 | h2
  · subst h1; decide
  · rcases List.mem_append.mp h2 with h3 | h4
    · exact printable_ne_esc (hb c h3)
    · have hc7 : c = '\x07' := by simpa using h4
      subst hc7; decide

theorem stageCsi : ∀ ts : List AnsiTok, (∀ t ∈ ts, t.wf = true) →
    stripWith csiM (renderToks ts) =
      renderToks (ts.filter fun t => !t.isCsiTok) := by
  intro ts
  induction ts with
  | nil => intro _; rfl
  | cons t ts ih =>
    intro h
    have hw := h t (List.mem_cons_self t ts)
    have hts := fun x hx => h x (List.mem_cons_of_mem t hx)
    cases t with
    | plain c =>
      have hc : ¬ c = '\x1b' := printable_ne_esc (tokWf_plain hw)
      have hfil : (AnsiTok.plain c :: ts).filter (fun t => !t.isCsiTok) =
          AnsiTok.plain c :: ts.filter (fun t => !t.isCsiTok) := by
        simp [List.filter, AnsiTok.isCsiTok]
      rw [renderToks_cons, hfil, renderToks_cons]
      show stripWith csiM (c :: renderToks ts) = _
      rw [stripWith_cons_ne csiM _ hc, ih hts]
      rfl
    | csi q ps f =>
      obtain ⟨hps, hf⟩ := tokWf_csi hw
      have hfil : (AnsiTok.csi q ps f :: ts).filter (fun t => !t.isCsiTok) =
          ts.filter (fun t => !t.isCsiTok) := by
        simp [List.filter, AnsiTok.isCsiTok]
      rw [renderToks_cons, hfil]
      cases q with
      | true =>
        have hsh : (AnsiTok.csi true ps f).render ++ renderToks ts =
            '\x1b' :: ('[' :: '?' :: (ps ++ f :: renderToks ts)) := by
          simp [AnsiTok.render]
        rw [hsh]
        obtain ⟨hp', hm⟩ := map_val_some (csiM_val_q ps f (renderToks ts) hps hf)
        rw [stripWith_esc_some csiM hm]
        exact ih hts
      | false =>
        have hsh : (AnsiTok.csi false ps f).render ++ renderToks ts =
            '\x1b' :: ('[' :: (ps ++ f :: renderToks ts)) := by
          simp [AnsiTok.render]
        rw [hsh]
        obtain ⟨hp', hm⟩ := map_val_some (csiM_val_noq ps f (renderToks ts) hps hf)
        rw [stripWith_esc_some csiM hm]
        exact ih hts
    | osc b =>
      have hb := tokWf_osc hw
      have hfil : (AnsiTok.osc b :: ts).filter (fun t => !t.isCsiTok) =
          AnsiTok.osc b :: ts.filter (fun t => !t.isCsiTok) := by
        simp [List.filter, AnsiTok.isCsiTok]
      rw [renderToks_cons, hfil, renderToks_cons]
      have hsh : (AnsiTok.osc b).render ++ renderToks ts =
          '\x1b' :: ((']' :: (b ++ ['\x07'])) ++ renderToks ts) := by
        simp [AnsiTok.render]
      rw [hsh]
      have hnone : csiM ((']' :: (b ++ ['\x07'])) ++ renderToks ts) = none := by
        rw [List.cons_append]; exact csiM_rsb _
      rw [stripWith_esc_none csiM hnone,
        stripWith_append csiM (renderToks ts) (noEsc_oscRender hb), ih hts]
      simp [AnsiTok.render]

theorem stageOsc : ∀ ts : List AnsiTok, (∀ t ∈ ts, t.wf = true) →
    (∀ t ∈ ts, t.isCsiTok = false) →
    stripWith oscM (renderToks ts) =
      renderToks (ts.filter fun t => !t.isOscTok) := by
  intro ts
  induction ts with
  | nil => intro _ _; rfl
  | cons t ts ih =>
    intro h hcsi
    have hw := h t (List.mem_cons_self t ts)
    have hts := fun x hx => h x (List.mem_cons_of_mem t hx)
    have htscsi := fun x hx => hcsi x (List.mem_cons_of_mem t hx)
    cases t with
    | plain c =>
      have hc : ¬ c = '\x1b' := printable_ne_esc (tokWf_plain hw)
      have hfil : (AnsiTok.plain c :: ts).filter (fun t => !t.isOscTok) =
          AnsiTok.plain c :: ts.filter (fun t => !t.isOscTok) := by
        simp [List.filter, AnsiTok.isOscTok]
      rw [renderToks_cons, hfil, renderToks_cons]
      show stripWith oscM (c :: renderToks ts) = _
      rw [stripWith_cons_ne oscM _ hc, ih hts htscsi]
      rfl
    | csi q ps f =>
      have : (AnsiTok.csi q ps f).isCsiTok = true := rfl
      rw [hcsi _ (List.mem_cons_self _ ts)] at this
      exact Bool.noConfusion this
    | osc b =>
      have hb := tokWf_osc hw
      have hfil : (AnsiTok.osc b :: ts).filter (fun t => !t.isOscTok) =
          ts.filter (fun t => !t.isOscTok) := by
        simp [List.filter, AnsiTok.isOscTok]
      rw [renderToks_cons, hfil]
      have hsh : (AnsiTok.osc b).render ++ renderToks ts =
          '\x1b' :: (']' :: (b ++ '\x07' :: renderToks ts)) := by
        simp [AnsiTok.render]
      rw [hsh]
      obtain ⟨hp', hm⟩ := map_val_some (oscM_val b (renderToks ts) hb)
      rw [stripWith_esc_some oscM hm]
      exact ih hts htscsi

theorem renderToks_plainOnly : ∀ ts : List AnsiTok,
    (∀ t ∈ ts, t.isCsiTok = false) → (∀ t ∈ ts, t.isOscTok = false) →
    renderToks ts = plainOf ts := by
  intro ts
  induction ts with
  | nil => intro _ _; rfl
  | cons t ts ih =>
    intro h1 h2
    cases t with
    | plain c =>
      rw [renderToks_cons]
      show [c] ++ renderToks ts = c :: plainOf ts
      rw [List.singleton_append,
        ih (fun x hx => h1 x (List.mem_cons_of_mem _ hx))
           (fun x hx => h2 x (List.mem_cons_of_mem _ hx))]
    | csi q ps f =>
      have : (AnsiTok.csi q ps f).isCsiTok = true := rfl
      rw [h1 _ (List.mem_cons_self _ ts)] at this
      exact Bool.noConfusion this
    | osc b =>
      have : (AnsiTok.osc b).isOscTok = true := rfl
      rw [h2 _ (List.mem_cons_self _ ts)] at this
      exact Bool.noConfusion this

theorem plainOf_filter (p : AnsiTok → Bool)
    (hp : ∀ c : Char, p (AnsiTok.plain c) = true) :
    ∀ ts : List AnsiTok, plainOf (ts.filter p) = plainOf ts := by
  intro ts
  induction ts with
  | nil => rfl
  | cons t ts ih =>
    cases t with
    | plain c =>
      have hfil : (AnsiTok.plain c :: ts).filter p = AnsiTok.plain c :: ts.filter p := by
        simp [List.filter, hp c]
      rw [hfil]
      show c :: plainOf (ts.filter p) = c :: plainOf ts
      rw [ih]
    | csi q ps f =>
      cases hpt : p (AnsiTok.csi q ps f) with
      | false =>
        have hfil : (AnsiTok.csi q ps f :: ts).filter p = ts.filter p := by
          simp [List.filter, hpt]
        rw [hfil]
        show plainOf (ts.filter p) = plainOf ts
        exact ih
      | true =>
        have hfil : (AnsiTok.csi q ps f :: ts).filter p =
            AnsiTok.csi q ps f :: ts.filter p := by
          simp [List.filter, hpt]
        rw [hfil]
        show plainOf (ts.filter p) = plainOf ts
        exact ih
    | osc b =>
      cases hpt : p (AnsiTok.osc b) with
      | false =>
        have hfil : (AnsiTok.osc b :: ts).filter p = ts.filter p := by
          simp [List.filter, hpt]
        rw [hfil]
        show plainOf (ts.filter p) = plainOf ts
        exact ih
      | true =>
        have hfil : (AnsiTok.osc b :: ts).filter p = AnsiTok.osc b :: ts.filter p := by
          simp [List.filter, hpt]
        rw [hfil]
        show plainOf (ts.filter p) = plainOf ts
        exact ih

theorem plainOf_printable : ∀ ts : List AnsiTok, (∀ t ∈ ts, t.wf = true) →
    ∀ c ∈ plainOf ts, printableAscii c = true := by
  intro ts
  induction ts with
  | nil => intro _ c hc; cases hc
  | cons t ts ih =>
    intro h c hc
    have hts := fun x hx => h x (List.mem_cons_of_mem t hx)
    cases t with
    | plain d =>
      rcases List.mem_cons.mp hc with h1 | h2
      · subst h1; exact tokWf_plain (h _ (List.mem_cons_self _ ts))
      · exact ih hts c h2
    | csi q ps f => exact ih hts c hc
    | osc b => exact ih hts c hc

/-- The normalizer removes every recognised escape form from a well-formed
token stream, leaving exactly the plain printable characters. -/
theorem stripAnsiL_removes (ts : List AnsiTok) (h : ∀ t ∈ ts, t.wf = true) :
    stripAnsiL (renderToks ts) = plainOf ts := by
  have hw1 : ∀ t ∈ ts.filter (fun t => !t.isCsiTok), t.wf = true :=
    fun t ht => h t (List.mem_of_mem_filter ht)
  have hnc1 : ∀ t ∈ ts.filter (fun t => !t.isCsiTok), t.isCsiTok = false := by
    intro t ht
    have := List.of_mem_filter ht
    simpa using this
  have hw2 : ∀ t ∈ (ts.filter (fun t => !t.isCsiTok)).filter (fun t => !t.isOscTok),
      t.wf = true := fun t ht => hw1 t (List.mem_of_mem_filter ht)
  have hnc2 : ∀ t ∈ (ts.filter (fun t => !t.isCsiTok)).filter (fun t => !t.isOscTok),
      t.isCsiTok = false := fun t ht => hnc1 t (List.mem_of_mem_filter ht)
  have hno2 : ∀ t ∈ (ts.filter (fun t => !t.isCsiTok)).filter (fun t => !t.isOscTok),
      t.isOscTok = false := by
    intro t ht
    have := List.of_mem_filter ht
    simpa using this
  have hprint : ∀ c ∈ plainOf ((ts.filter (fun t => !t.isCsiTok)).filter
      (fun t => !t.isOscTok)), printableAscii c = true := plainOf_printable _ hw2
  have hplain : plainOf ((ts.filter (fun t => !t.isCsiTok)).filter
      (fun t => !t.isOscTok)) = plainOf ts := by
    rw [plainOf_filter _ (fun c => rfl), plainOf_filter _ (fun c => rfl)]
  show stripCtrlL (stripWith pasteM (stripWith dsrM (stripWith charsetM
    (stripWith esc2M (stripWith oscM (stripWith csiM (renderToks ts))))))) = _
  rw [stageCsi ts h, stageOsc _ hw1 hnc1, renderToks_plainOnly _ hnc2 hno2]
  have hne : ∀ c ∈ plainOf ((ts.filter (fun t => !t.isCsiTok)).filter
      (fun t => !t.isOscTok)), ¬ c = '\x1b' :=
    fun c hc => printable_ne_esc (hprint c hc)
  rw [stripWith_noEsc esc2M hne, stripWith_noEsc charsetM hne,
    stripWith_noEsc dsrM hne, stripWith_noEsc pasteM hne,
    stripCtrlL_id (fun c hc => printable_not_ctrl (hprint c hc)), hplain]

theorem stripAnsiL_idem (l : List Char) :
    stripAnsiL (stripAnsiL l) = stripAnsiL l := by
  have hN : ∀ c ∈ stripAnsiL l, ¬ c = '\x1b' := fun c hc => noEsc_of_stripAnsiL hc
  have hC : ∀ c ∈ stripAnsiL l, isCtrlStrip c = false :=
    fun c hc => noCtrl_of_stripAnsiL hc
  show stripCtrlL (stripWith pasteM (stripWith dsrM (stripWith charsetM
    (stripWith esc2M (stripWith oscM (stripWith csiM (stripAnsiL l))))))) = _
  rw [stripWith_noEsc csiM hN, stripWith_noEsc oscM hN, stripWith_noEsc esc2M hN,
    stripWith_noEsc charsetM hN, stripWith_noEsc dsrM hN, stripWith_noEsc pasteM hN,
    stripCtrlL_id hC]

/-! ## Lemmas about splitting, joining and stripping -/

theorem char_eq_of_toNat_eq {a b : Char} (h : a.toNat = b.toNat) : a = b := by
  have hv : a.val = b.val := UInt32.toNat.inj h
  exact Char.eq_of_val_eq hv

theorem pySplitL_no_nl : ∀ {l : List Char}, '\n' ∉ l → pySplitL l = [l] := by
  intro l
  induction l with
  | nil => intro _; rfl
  | cons c rest ih =>
    intro h
    have hc : ¬ c = '\n' := fun he => h (he ▸ List.mem_cons_self c rest)
    have hrest : '\n' ∉ rest := fun hm => h (List.mem_cons_of_mem c hm)
    simp only [pySplitL, if_neg hc, ih hrest]

theorem pySplitL_append : ∀ (a b : List Char), '\n' ∉ a →
    pySplitL (a ++ '\n' :: b) = a :: pySplitL b := by
  intro a
  induction a with
  | nil =>
    intro b _
    simp [pySplitL]
  | cons c as ih =>
    intro b h
    have hc : ¬ c = '\n' := fun he => h (he ▸ List.mem_cons_self c as)
    have has : '\n' ∉ as := fun hm => h (List.mem_cons_of_mem c hm)
    simp only [List.cons_append, pySplitL, if_neg hc, List.append_eq]
    rw [ih b has]

theorem pyJoinL_cons (a : List Char) {L : List (List Char)} (h : L ≠ []) :
    pyJoinL (a :: L) = a ++ '\n' :: pyJoinL L := by
  cases L with
  | nil => exact absurd rfl h
  | cons b L => rfl

theorem pySplitL_pyJoinL : ∀ (L : List (List Char)), (∀ l ∈ L, '\n' ∉ l) → L ≠ [] →
    pySplitL (pyJoinL L) = L := by
  intro L
  induction L with
  | nil => intro _ h; exact absurd rfl h
  | cons a L ih =>
    intro h _
    cases L with
    | nil => exact pySplitL_no_nl (h a (List.mem_cons_self a []))
    | cons b L' =>
      rw [pyJoinL_cons a (by simp),
        pySplitL_append _ _ (h a (List.mem_cons_self a _)),
        ih (fun x hx => h x (List.mem_cons_of_mem a hx)) (by simp)]

theorem stripAnsiL_id {l : List Char}
    (h : ∀ c ∈ l, ¬ c = '\x1b' ∧ isCtrlStrip c = false) : stripAnsiL l = l := by
  have hN : ∀ c ∈ l, ¬ c = '\x1b' := fun c hc => (h c hc).1
  have hC : ∀ c ∈ l, isCtrlStrip c = false := fun c hc => (h c hc).2
  show stripCtrlL (stripWith pasteM (stripWith dsrM (stripWith charsetM
    (stripWith esc2M (stripWith oscM (stripWith csiM l)))))) = _
  rw [stripWith_noEsc csiM hN, stripWith_noEsc oscM hN, stripWith_noEsc esc2M hN,
    stripWith_noEsc charsetM hN, stripWith_noEsc dsrM hN, stripWith_noEsc pasteM hN,
    stripCtrlL_id hC]

/-! ## Lemmas about the diff-cleaning and the statement loop -/

theorem cleanDiffOutput_diff_prompt (p : String)
    (hp : ∀ c ∈ p.data, printableAscii c = true) (hpr : isPromptLine p = true) :
    cleanDiffOutput ("diff\n" ++ p) = "" := by
  have hdata : ("diff\n" ++ p).data = "diff".data ++ '\n' :: p.data := by
    rw [String.data_append]; rfl
  have hnlp : '\n' ∉ p.data := fun hm => printable_ne_nl (hp _ hm) rfl
  have hstrip : stripAnsiL (("diff\n" ++ p).data) = ("diff\n" ++ p).data := by
    rw [hdata]
    apply stripAnsiL_id
    intro c hc
    rcases List.mem_append.mp hc with h1 | h2
    · have : c = 'd' ∨ c = 'i' ∨ c = 'f' ∨ c = 'f' := by simpa using h1
      rcases this with rfl | rfl | rfl | rfl <;> exact ⟨by decide, by decide⟩
    · rcases List.mem_cons.mp h2 with rfl | h3
      · exact ⟨by decide, by decide⟩
      · exact ⟨printable_ne_esc (hp c h3), printable_not_ctrl (hp c h3)⟩
  have hclean : stripAnsi ("diff\n" ++ p) = "diff\n" ++ p := by
    show String.mk (stripAnsiL (("diff\n" ++ p).data)) = "diff\n" ++ p
    rw [hstrip]
  have hsplit : pySplitL (("diff\n" ++ p).data) = ["diff".data, p.data] := by
    rw [hdata, pySplitL_append _ _ (by decide), pySplitL_no_nl hnlp]
  have hkp : keepDiffLine p = false := by
    simp [keepDiffLine, hpr]
  have hres : diffResidue ("diff\n" ++ p) = "" := by
    simp only [diffResidue, hclean, hsplit]
    have hmkp : String.mk p.data = p := rfl
    simp only [List.map, hmkp]
    have hkd : keepDiffLine (String.mk "diff".data) = false := by decide
    simp [List.filter, hkd, hkp, pyJoin, pyJoinL, pyStrip, pyStripL]
  simp [cleanDiffOutput, hres]

theorem applyStatements_ok (dev : String → String) : ∀ lines : List String,
    (∀ l ∈ lines, pyStrip l = "" ∨ errMarker (dev l) = false) →
    applyStatements dev lines =
      (lines.filter (fun l => !(pyStrip l = "")),
       lines.filter (fun l => !(pyStrip l = "")), none) := by
  intro lines
  induction lines with
  | nil => intro _; rfl
  | cons line rest ih =>
    intro h
    have hrest := fun x hx => h x (List.mem_cons_of_mem line hx)
    by_cases hb : pyStrip line = ""
    · simp [applyStatements, hb, List.filter, ih hrest]
    · have herr : errMarker (dev line) = false := by
        rcases h line (List.mem_cons_self line rest) with h1 | h2
        · exact absurd h1 hb
        · exact h2
      simp [applyStatements, hb, herr, List.filter, ih hrest]

theorem applyStatements_reject (dev : String → String) :
    ∀ (pre : List String) (stmt : String) (post : List String),
    (∀ l ∈ pre, ¬ pyStrip l = "" ∧ errMarker (dev l) = false) →
    ¬ pyStrip stmt = "" → errMarker (dev stmt) = true →
    applyStatements dev (pre ++ stmt :: post) =
      (pre ++ [stmt], pre ++ [stmt, "quit"],
       some ("Configuration error: " ++ dev stmt)) := by
  intro pre
  induction pre with
  | nil =>
    intro stmt post _ hs he
    simp [applyStatements, hs, he]
  | cons a pre ih =>
    intro stmt post h hs he
    have ha := h a (List.mem_cons_self a pre)
    have hpre := fun x hx => h x (List.mem_cons_of_mem a hx)
    simp [applyStatements, ha.1, ha.2, ih stmt post hpre hs he]

/-! ## Lemmas about the poll loop -/

theorem chunksOf_nil : chunksOf [] = [] := rfl

theorem chunksOf_cons (st : PollStep) (rest : List PollStep) :
    chunksOf (st :: rest) = (if st.ready then st.chunk else []) ++ chunksOf rest := by
  by_cases h : st.ready <;> simp [chunksOf, List.filterMap_cons, h]

theorem sendCommandReads_timeout : ∀ (steps : List PollStep) (acc : List Char),
    (∀ pre suf, steps = pre ++ suf →
      promptFound (stripAnsiL (acc ++ chunksOf pre)) = false) →
    sendCommandReads steps acc = acc ++ chunksOf steps := by
  intro steps
  induction steps with
  | nil =>
    intro acc _
    simp [sendCommandReads, chunksOf]
  | cons st rest ih =>
    intro acc h
    by_cases hr : st.ready = true
    · have hpf : promptFound (stripAnsiL (acc ++ st.chunk)) = false := by
        have := h [st] rest rfl
        simpa [chunksOf_cons, hr, chunksOf] using this
      have hrec : sendCommandReads rest (acc ++ st.chunk) =
          (acc ++ st.chunk) ++ chunksOf rest := by
        apply ih
        intro pre suf he
        have := h (st :: pre) suf (by rw [he, List.cons_append])
        simpa [chunksOf_cons, hr, List.append_assoc] using this
      simp [sendCommandReads, hr, hpf, hrec, chunksOf_cons, List.append_assoc]
    · have hrec : sendCommandReads rest acc = acc ++ chunksOf rest := by
        apply ih
        intro pre suf he
        have := h (st :: pre) suf (by rw [he, List.cons_append])
        simpa [chunksOf_cons, hr] using this
      simp [sendCommandReads, hr, hrec, chunksOf_cons]

/-! ## Lemmas about the comparator -/

theorem leChars_total : ∀ x y : List Char, leChars x y = true ∨ leChars y x = true := by
  intro x
  induction x with
  | nil => intro y; left; rfl
  | cons a as ih =>
    intro y
    cases y with
    | nil => right; rfl
    | cons b bs =>
      rcases Nat.lt_trichotomy a.toNat b.toNat with hlt | heq | hgt
      · left; simp [leChars, hlt]
      · have hab : a = b := char_eq_of_toNat_eq heq
        subst hab
        rcases ih bs with h | h
        · left; simp [leChars, h]
        · right; simp [leChars, h]
      · right; simp [leChars, hgt]

theorem leChars_trans : ∀ x y z : List Char,
    leChars x y = true → leChars y z = true → leChars x z = true := by
  intro x
  induction x with
  | nil => intro y z _ _; rfl
  | cons a as ih =>
    intro y z h1 h2
    cases y with
    | nil => exact absurd h1 (by simp [leChars])
    | cons b bs =>
      cases z with
      | nil => exact absurd h2 (by simp [leChars])
      | cons c cs =>
        by_cases hab : a.toNat < b.toNat
        · by_cases hbc : b.toNat < c.toNat
          · simp [leChars, Nat.lt_trans hab hbc]
          · by_cases hbc2 : b = c
            · subst hbc2; simp [leChars, hab]
            · exfalso
              simp [leChars, hbc, hbc2] at h2
        · by_cases hab2 : a = b
          · subst hab2
            have h1' : leChars as bs = true := by
              simpa [leChars, hab] using h1
            by_cases hac : a.toNat < c.toNat
            · simp [leChars, hac]
            · by_cases hac2 : a = c
              · subst hac2
                have h2' : leChars bs cs = true := by
                  simpa [leChars, hac] using h2
                simp [leChars, hac, ih bs cs h1' h2']
              · exfalso
                simp [leChars, hac, hac2] at h2
          · exfalso
            simp [leChars, hab, hab2] at h1

theorem strLeB_total (a b : String) : strLeB a b = true ∨ strLeB b a = true :=
  leChars_total a.data b.data

theorem strLeB_trans {a b c : String} (h1 : strLeB a b = true)
    (h2 : strLeB b c = true) : strLeB a c = true :=
  leChars_trans a.data b.data c.data h1 h2

theorem mem_sortStrings {x : String} {l : List String} :
    x ∈ sortStrings l ↔ x ∈ l := (List.perm_insertionSort _ l).mem_iff

theorem toFinset_sortStrings (l : List String) :
    (sortStrings l).toFinset = l.toFinset := by
  ext x
  simp [List.mem_toFinset, mem_sortStrings]

theorem sortStrings_sorted (l : List String) :
    List.Sorted (fun a b => strLeB a b = true) (sortStrings l) := by
  haveI : IsTotal String (fun a b => strLeB a b = true) := ⟨strLeB_total⟩
  haveI : IsTrans String (fun a b => strLeB a b = true) :=
    ⟨fun _ _ _ h1 h2 => strLeB_trans h1 h2⟩
  exact List.sorted_insertionSort _ l

theorem sortStrings_nodup {l : List String} (h : l.Nodup) :
    (sortStrings l).Nodup := ((List.perm_insertionSort _ l).nodup_iff).mpr h

theorem canonList_nodup (lines : List String) : (canonList lines).Nodup :=
  List.nodup_dedup _

theorem mem_canonList {x : String} {lines : List String} :
    x ∈ canonList lines ↔ x ∈ canonSet lines := (List.mem_toFinset).symm

theorem filter_not_contains_toFinset (a b : List String) :
    (a.filter fun l => !(b.contains l)).toFinset = a.toFinset \ b.toFinset := by
  ext x
  simp [List.mem_toFinset, List.mem_filter, Finset.mem_sdiff]

theorem hasChanges_empty : hasChanges "" = false := rfl

/-! ## The claims -/

/-- C1 (counterexample): applying `["set / interface ethernet-1/1 bogus-opt
enable"]` when the device answers `"Error: invalid option"` aborts the
transaction with the configuration-error failure, but the transport records
`quit` only — the recorded occurrences of `discard now` number zero, not the
one the claim asserts. -/
theorem C1_counterexample :
    send_config devReject ["set / interface ethernet-1/1 bogus-opt enable"] true =
      (Except.error "Configuration error: Error: invalid option",
       ["enter candidate", "set / interface ethernet-1/1 bogus-opt enable", "quit"]) ∧
    (send_config devReject ["set / interface ethernet-1/1 bogus-opt enable"]
      true).2.count "discard now" = 0 :=
  ⟨by decide, by decide⟩

/-- C1 (amended): for every statement sequence applied in a candidate
transaction, if some statement's response contains an error/invalid marker
(case-insensitive substring), the remaining statements are not sent and the
transport records exactly one `quit` — and no `discard now` — after the
rejected statement, before the configuration-error failure is reported. -/
theorem C1_theorem : ∀ (dev : String → String) (pre : List String)
    (stmt : String) (post : List String) (commit : Bool),
    containsLower (dev "enter candidate") "candidate" = true →
    (∀ l ∈ pre, ¬ pyStrip l = "" ∧ errMarker (dev l) = false) →
    ¬ pyStrip stmt = "" → errMarker (dev stmt) = true →
    send_config dev (pre ++ stmt :: post) commit =
      (Except.error ("Configuration error: " ++ dev stmt),
       "enter candidate" :: (pre ++ [stmt, "quit"])) := by
  intro dev pre stmt post commit hent hpre hs he
  have h1 : (pre ++ stmt :: post).isEmpty = false := by
    cases pre <;> rfl
  simp [send_config, h1, hent, applyStatements_reject dev pre stmt post hpre hs he]

/-- C1 (witness): the amended statement at the concrete scenario device. -/
theorem C1_witness :
    send_config devReject ["set / interface ethernet-1/1 bogus-opt enable"] true =
      (Except.error ("Configuration error: " ++
        devReject "set / interface ethernet-1/1 bogus-opt enable"),
       "enter candidate" ::
         ([] ++ ["set / interface ethernet-1/1 bogus-opt enable", "quit"])) :=
  C1_theorem devReject [] "set / interface ethernet-1/1 bogus-opt enable" [] true
    (by decide) (by intro l hl; cases hl) (by decide) (by decide)

/-- C2: the comparator reduces both sides to canonical `set `-statement sets;
`missing`/`extra` are the sorted set differences; equal canonical sets give
`has_drift = false` and empty diff text; disjoint canonical sets give
`missing` enumerating the whole intended set and `extra` the whole observed
set. -/
theorem C2_theorem : ∀ (intended : List String) (observed : String),
    (compareLogic intended observed).missing.toFinset =
      canonSet intended \ canonText observed ∧
    (compareLogic intended observed).extra.toFinset =
      canonText observed \ canonSet intended ∧
    List.Sorted (fun a b => strLeB a b = true)
      (compareLogic intended observed).missing ∧
    List.Sorted (fun a b => strLeB a b = true)
      (compareLogic intended observed).extra ∧
    (compareLogic intended observed).missing.Nodup ∧
    (compareLogic intended observed).extra.Nodup ∧
    (canonSet intended = canonText observed →
      (compareLogic intended observed).has_drift = false ∧
      (compareLogic intended observed).diff = "") ∧
    (Disjoint (canonSet intended) (canonText observed) →
      (compareLogic intended observed).missing.toFinset = canonSet intended ∧
      (compareLogic intended observed).extra.toFinset = canonText observed) := by
  intro intended observed
  have hm : (compareLogic intended observed).missing =
      sortStrings ((canonList intended).filter
        fun l => !((canonList (pySplit observed)).contains l)) := rfl
  have hx : (compareLogic intended observed).extra =
      sortStrings ((canonList (pySplit observed)).filter
        fun l => !((canonList intended).contains l)) := rfl
  have hmf : (compareLogic intended observed).missing.toFinset =
      canonSet intended \ canonText observed := by
    rw [hm, toFinset_sortStrings, filter_not_contains_toFinset]; rfl
  have hxf : (compareLogic intended observed).extra.toFinset =
      canonText observed \ canonSet intended := by
    rw [hx, toFinset_sortStrings, filter_not_contains_toFinset]; rfl
  refine ⟨hmf, hxf, ?_, ?_, ?_, ?_, ?_, ?_⟩
  · rw [hm]; exact sortStrings_sorted _
  · rw [hx]; exact sortStrings_sorted _
  · rw [hm]; exact sortStrings_nodup ((canonList_nodup intended).filter _)
  · rw [hx]; exact sortStrings_nodup ((canonList_nodup (pySplit observed)).filter _)
  · intro hEqSets
    have hmnil : ((canonList intended).filter
        fun l => !((canonList (pySplit observed)).contains l)) = [] := by
      apply List.filter_eq_nil_iff.mpr
      intro x hx'
      have : x ∈ canonText observed := by
        rw [← hEqSets]
        exact List.mem_toFinset.mpr hx'
      have hxo : x ∈ canonList (pySplit observed) := List.mem_toFinset.mp this
      simp [hxo]
    have hxnil : ((canonList (pySplit observed)).filter
        fun l => !((canonList intended).contains l)) = [] := by
      apply List.filter_eq_nil_iff.mpr
      intro x hx'
      have : x ∈ canonSet intended := by
        rw [hEqSets]
        exact List.mem_toFinset.mpr hx'
      have hxo : x ∈ canonList intended := List.mem_toFinset.mp this
      simp [hxo]
    constructor
    · show (!(sortStrings ((canonList intended).filter
        fun l => !((canonList (pySplit observed)).contains l))).isEmpty ||
        !(sortStrings ((canonList (pySplit observed)).filter
        fun l => !((canonList intended).contains l))).isEmpty) = false
      rw [hmnil, hxnil]; rfl
    · show pyJoin ((sortStrings ((canonList intended).filter
        fun l => !((canonList (pySplit observed)).contains l))).map
          (fun l => "+ " ++ l) ++
        (sortStrings ((canonList (pySplit observed)).filter
        fun l => !((canonList intended).contains l))).map
          (fun l => "- " ++ l)) = ""
      rw [hmnil, hxnil]; rfl
  · intro hD
    constructor
    · rw [hmf]
      exact (sdiff_eq_self_iff_disjoint).mpr hD.symm
    · rw [hxf]
      exact (sdiff_eq_self_iff_disjoint).mpr hD

/-- C2 (witness): equal canonical sets give no drift and empty diff text;
disjoint non-empty canonical sets give `missing` = intended set and `extra` =
observed set. -/
theorem C2_witness :
    ((compareLogic ["set / a"] " set / a ").has_drift = false ∧
     (compareLogic ["set / a"] " set / a ").diff = "") ∧
    ((compareLogic ["set / a"] "set / b").missing.toFinset =
       canonSet ["set / a"] ∧
     (compareLogic ["set / a"] "set / b").extra.toFinset =
       canonText "set / b") ∧
    (canonSet ["set / a"]).Nonempty ∧ (canonText "set / b").Nonempty :=
  ⟨ ( C2_theorem ["set / a"] " set / a ").2.2.2.2.2.2.1 (by decide),
   ( C2_theorem ["set / a"] "set / b").2.2.2.2.2.2.2
     (Finset.disjoint_left.mpr (by decide)),
   by decide, by decide⟩

/-- C3: the output normalizer (a total function) is idempotent on every
input, and on every well-formed stream of printable ASCII and CSI/OSC escape
sequences it removes all recognised escape forms, leaving exactly the plain
characters. -/
theorem C3_theorem :
    (∀ s : String, stripAnsi (stripAnsi s) = stripAnsi s) ∧
    (∀ ts : List AnsiTok, (∀ t ∈ ts, t.wf = true) →
      stripAnsi (String.mk (renderToks ts)) = String.mk (plainOf ts)) := by
  constructor
  · intro s
    exact congrArg String.mk (stripAnsiL_idem s.data)
  · intro ts h
    exact congrArg String.mk (stripAnsiL_removes ts h)

/-- C3 (witness): a stream with a cursor-visibility CSI sequence and a
title-setting OSC sequence surrounding plain text normalizes to the plain
text. -/
theorem C3_witness :
    stripAnsi (String.mk (renderToks
      [AnsiTok.csi true ['2', '5'] 'h', AnsiTok.plain 'o',
       AnsiTok.osc ['0', ';', 't'], AnsiTok.plain 'k'])) = "ok" :=
  (C3_theorem.2
    [AnsiTok.csi true ['2', '5'] 'h', AnsiTok.plain 'o',
     AnsiTok.osc ['0', ';', 't'], AnsiTok.plain 'k'] (by decide)).trans (by decide)

/-- C4: when no prefix of the accumulated (ANSI-normalized) input ever
matches the end-anchored prompt pattern, the poll loop runs to its deadline
(the end of the poll-step list) and returns the whole accumulated partial
buffer — it is a total function returning the buffer, not an exception. -/
theorem C4_theorem : ∀ steps : List PollStep,
    (∀ n : Nat, n ≤ steps.length →
      promptFound (stripAnsiL (chunksOf (steps.take n))) = false) →
    sendCommandReads steps [] = chunksOf steps := by
  intro steps h
  have h' : ∀ pre suf, steps = pre ++ suf →
      promptFound (stripAnsiL ([] ++ chunksOf pre)) = false := by
    intro pre suf he
    have hlen : pre.length ≤ steps.length := by
      rw [he, List.length_append]; exact Nat.le_add_right _ _
    have hpre := h pre.length hlen
    rw [he, List.take_left] at hpre
    simpa using hpre
  have hrun := sendCommandReads_timeout steps [] h'
  simpa using hrun

/-- C4 (witness): three poll iterations (data, silence, data) with no prompt
anywhere return the concatenation of both chunks. -/
theorem C4_witness :
    sendCommandReads
      [⟨true, ['a', 'b']⟩, ⟨false, []⟩, ⟨true, ['c', 'd']⟩] [] =
      chunksOf [⟨true, ['a', 'b']⟩, ⟨false, []⟩, ⟨true, ['c', 'd']⟩] :=
  C4_theorem [⟨true, ['a', 'b']⟩, ⟨false, []⟩, ⟨true, ['c', 'd']⟩] (by decide)

/-- C5: when the device's diff output consists solely of the literal line
`diff` and a bracketed prompt line, the cleaned diff canonicalizes to the
empty string, the transaction is reported unchanged, no `commit now` is
sent, and `discard now` is sent before the final `quit`. -/
theorem C5_theorem : ∀ (dev : String → String) (lines : List String) (p : String),
    lines ≠ [] →
    containsLower (dev "enter candidate") "candidate" = true →
    (∀ l ∈ lines, pyStrip l = "" ∨ errMarker (dev l) = false) →
    dev "diff" = "diff\n" ++ p →
    (∀ c ∈ p.data, printableAscii c = true) →
    isPromptLine p = true →
    cleanDiffOutput (dev "diff") = "" ∧
    send_config dev lines true =
      (Except.ok ⟨false, lines.filter (fun l => !(pyStrip l = "")), ""⟩,
       "enter candidate" :: (lines.filter (fun l => !(pyStrip l = "")) ++
         ["diff", "discard now", "quit"])) := by
  intro dev lines p hne hent hok hdev hp hpr
  have hclean : cleanDiffOutput (dev "diff") = "" := by
    rw [hdev]; exact cleanDiffOutput_diff_prompt p hp hpr
  refine ⟨hclean, ?_⟩
  have h1 : lines.isEmpty = false := by
    cases lines with
    | nil => exact absurd rfl hne
    | cons a l => rfl
  simp [send_config, h1, hent, applyStatements_ok dev lines hok, hclean,
    hasChanges_empty]

/-- C5 (witness): the scenario device at a single harmless statement. -/
theorem C5_witness :
    cleanDiffOutput (devNoChange "diff") = "" ∧
    send_config devNoChange ["set / system name host-name leaf1"] true =
      (Except.ok ⟨false, ["set / system name host-name leaf1"], ""⟩,
       ["enter candidate", "set / system name host-name leaf1", "diff",
        "discard now", "quit"]) := by
  have h := C5_theorem devNoChange ["set / system name host-name leaf1"]
    "--\x7b candidate shared default \x7d--" (by decide) (by decide) (by decide)
    (by decide) (by decide) (by decide)
  exact ⟨h.1, h.2.trans (by decide)⟩

/-- C6: the diff text renders the sorted missing lines prefixed `+ ` followed
by the sorted extra lines prefixed `- `; in the single-statement scenario
with empty observed output the diff text is exactly the one `+ `-prefixed
statement. -/
theorem C6_theorem :
    (∀ (intended : List String) (observed : String),
      (compareLogic intended observed).diff =
        pyJoin ((compareLogic intended observed).missing.map
            (fun l => "+ " ++ l) ++
          (compareLogic intended observed).extra.map (fun l => "- " ++ l)) ∧
      List.Sorted (fun a b => strLeB a b = true)
        (compareLogic intended observed).missing ∧
      List.Sorted (fun a b => strLeB a b = true)
        (compareLogic intended observed).extra) ∧
    (compareLogic ["set / interface ethernet-1/1 admin-state enable"] "") =
      { missing := ["set / interface ethernet-1/1 admin-state enable"]
        extra := []
        has_drift := true
        diff := "+ set / interface ethernet-1/1 admin-state enable" } := by
  constructor
  · intro intended observed
    exact ⟨rfl, sortStrings_sorted _, sortStrings_sorted _⟩
  · decide

/-- C7 (counterexample): the residue `+` contains no alphanumeric character
and no bracket character, yet diff-cleaning returns `+`, not the empty
string: the code's final test also accepts the sign characters `+`/`-`. -/
theorem C7_counterexample :
    diffResidue "+" = "+" ∧
    (∀ c ∈ ("+" : String).data, pyIsAlnum c = false ∧
      c ∉ (['\x7b', '\x7d', '[', ']'] : List Char)) ∧
    cleanDiffOutput "+" = "+" ∧ ("+" : String) ≠ "" :=
  ⟨by decide, by decide, by decide, by decide⟩

/-- C7 (amended): if the residue left after the line filters contains no
alphanumeric character and none of the characters `+ - \x7b \x7d [ ]`, the
diff-cleaning operation returns the empty string. -/
theorem C7_theorem : ∀ raw : String,
    (∀ c ∈ (diffResidue raw).data,
      pyIsAlnum c = false ∧ diffMarkChars.contains c = false) →
    cleanDiffOutput raw = "" := by
  intro raw h
  have hany : ((diffResidue raw).data.any
      fun c => pyIsAlnum c || diffMarkChars.contains c) = false := by
    apply List.any_eq_false.mpr
    intro c hc
    rw [(h c hc).1, (h c hc).2]
    simp
  simp only [cleanDiffOutput]
  rw [hany]
  simp

/-- C7 (witness): a purely-symbolic residue (`~~`) cleans to empty. -/
theorem C7_witness : cleanDiffOutput "~~\n--\x7b x \x7d--" = "" :=
  C7_theorem "~~\n--\x7b x \x7d--" (by decide)

/-- C8 (counterexample): with raw output `echo`, ` body1`, a bracketed banner
line, `body2` and a non-banner final line `tail`, `execute_command` returns
`body1\nbody2` — the non-banner last line is dropped, the mid-body banner is
dropped and the result is whitespace-stripped — instead of the claim's
first-line-only removal `" body1\n--\x7b x \x7d--\nbody2\ntail"`. -/
theorem C8_counterexample :
    execute_command devEcho "show interface" = "body1\nbody2" ∧
    ("body1\nbody2" : String) ≠ " body1\n--\x7b x \x7d--\nbody2\ntail" :=
  ⟨by decide, by decide⟩

/-- C8 (amended): `execute_command` removes the first line and the last line
unconditionally (the last whether or not it is a prompt banner), removes
every `--\x7b ... \x7d--` banner line anywhere in the remaining body, and
strips surrounding whitespace from the joined result. -/
theorem C8_theorem : ∀ (dev : String → String) (cmd firstLine lastLine : String)
    (body : List String),
    dev cmd = pyJoin (firstLine :: body ++ [lastLine]) →
    (∀ l ∈ firstLine :: body ++ [lastLine], '\n' ∉ l.data) →
    (∀ c ∈ (pyJoin (firstLine :: body ++ [lastLine])).data,
      ¬ c = '\x1b' ∧ isCtrlStrip c = false) →
    execute_command dev cmd =
      pyStrip (pyJoin (body.filter fun l => !(isPromptLine l))) := by
  intro dev cmd firstLine lastLine body hdev hnl hcl
  have hclean : stripAnsi (pyJoin (firstLine :: body ++ [lastLine])) =
      pyJoin (firstLine :: body ++ [lastLine]) := by
    exact congrArg String.mk (stripAnsiL_id hcl)
  have hsplit : pySplitL ((pyJoin (firstLine :: body ++ [lastLine])).data) =
      (firstLine :: body ++ [lastLine]).map String.data := by
    apply pySplitL_pyJoinL
    · intro l hl
      rcases List.mem_map.mp hl with ⟨s, hs, rfl⟩
      exact hnl s hs
    · simp
  have hmk : ((firstLine :: body ++ [lastLine]).map String.data).map String.mk =
      firstLine :: body ++ [lastLine] := by
    rw [List.map_map]
    have : (String.mk ∘ String.data) = id := funext fun s => rfl
    rw [this, List.map_id]
  show processCommandOutput (dev cmd) = _
  rw [hdev]
  show pyStrip (pyJoin ((((pySplitL
      (stripAnsi (pyJoin (firstLine :: body ++ [lastLine]))).data).map
      String.mk).drop 1).dropLast.filter fun l => !(isPromptLine l))) = _
  rw [hclean, hsplit, hmk]
  have hbody : ((firstLine :: body ++ [lastLine]).drop 1).dropLast = body := by
    simp
  rw [hbody]

/-- C8 (witness): the amended statement at the concrete scenario output. -/
theorem C8_witness :
    execute_command devEcho "show interface" =
      pyStrip (pyJoin ([" body1", "--\x7b x \x7d--", "body2"].filter
        fun l => !(isPromptLine l))) :=
  C8_theorem devEcho "show interface" "echo" "tail"
    [" body1", "--\x7b x \x7d--", "body2"] (by decide) (by decide) (by decide)

/-- C9: the compare module retrieves the running configuration through a
method named `send_command`, which is not among the methods
`SRLinuxConnection` defines (it defines `_send_command` and
`execute_command`); the attribute lookup therefore fails and every
invocation takes the exception path and reports the comparison failure. -/
theorem C9_theorem :
    compareRetrievalMethod ∉ srlinuxConnectionMethods ∧
    "_send_command" ∈ srlinuxConnectionMethods ∧
    "execute_command" ∈ srlinuxConnectionMethods ∧
    ∀ (dev : String → String) (intended : List String) (configPath : String),
      compareMain dev intended configPath =
        Except.error "Configuration comparison failed: AttributeError" := by
  refine ⟨by decide, by decide, by decide, ?_⟩
  intro dev intended configPath
  unfold compareMain
  rw [if_neg (by decide)]

/-- C10: `send_config` with an empty statement list returns
`{changed: false, commands: [], diff: ''}` immediately, sending no command at
all (the transcript is empty), so no candidate mode is entered and the device
state is untouched. -/
theorem C10_theorem : ∀ (dev : String → String) (commit : Bool),
    send_config dev [] commit = (Except.ok ⟨false, [], ""⟩, []) := by
  intro dev commit
  rfl

end SRLinux
